import Mathlib

/-!
Verification of the image-scraper web application (src/backend/app.py).

The program is shallowly embedded: strings are `List Char` (`Str`), bytes are
`List Nat`, the network is an oracle `Fetch : Str → Option Response`
(`none` models a transport error: DNS failure, refused connection, timeout),
and Python exceptions caught by the code are modelled as `Option`/`Except`
results.  The library functions the code calls (`urllib.parse.urljoin`,
`urlparse`, `unquote`, `os.path.basename`, `os.path.splitext`, `re.search`
with the two concrete patterns used, `str.strip`, `str.lower`) are embedded
faithfully following CPython 3.11 / posixpath semantics.  HTML parsing
(BeautifulSoup) is abstracted at its query boundary: an `Img` element carries
the results of the attribute lookups the code performs (`data-src`, `src`,
`alt`, and the `figcaption` text of the nearest `figure` ancestor).
Concurrency in the batch fetcher is modelled by quantifying over the
completion order of the workers; the mutex-protected check-and-insert on the
shared filename set is the sequential fold over that order.
-/

set_option maxRecDepth 10000

abbrev Str := List Char

abbrev Body := List Nat

/-- Python `str.lower` restricted to ASCII (all inputs in this development are
ASCII; CPython lowercases the same way there). -/
def lowerStr (s : Str) : Str := s.map Char.toLower

/-- Python whitespace for `str.strip` (ASCII part: space, tab, LF, CR, VT, FF). -/
def pyIsSpace (c : Char) : Bool :=
  c = ' ' || c = '\t' || c = '\n' || c = '\r' || c = Char.ofNat 0x0b || c = Char.ofNat 0x0c

/-- Python `str.strip()`. -/
def pyStrip (s : Str) : Str :=
  ((s.dropWhile pyIsSpace).reverse.dropWhile pyIsSpace).reverse

/-- Does `needle` occur as an initial run of `hay`? -/
def leadsWith : Str → Str → Bool
  | [], _ => true
  | _ :: _, [] => false
  | a :: as, b :: bs => a = b && leadsWith as bs

/-- Python substring test `needle in hay`. -/
def containsSub (needle : Str) : Str → Bool
  | [] => needle.isEmpty
  | c :: rest => leadsWith needle (c :: rest) || containsSub needle rest

/-- Python `str.split(sep)` for a one-character separator. -/
def splitOnChar (sep : Char) : Str → List Str
  | [] => [[]]
  | c :: rest =>
    if c = sep then [] :: splitOnChar sep rest
    else
      match splitOnChar sep rest with
      | [] => [[c]]
      | s :: ss => (c :: s) :: ss

/-- Python `sep.join(parts)` for a one-character separator. -/
def joinWith (sep : Char) : List Str → Str
  | [] => []
  | [s] => s
  | s :: ss => s ++ sep :: joinWith sep ss

/-- Index of the last character satisfying `p` (Python `str.rfind`). -/
def rfindIdx (p : Char → Bool) : Str → Option Nat
  | [] => none
  | c :: rest =>
    match rfindIdx p rest with
    | some i => some (i + 1)
    | none => if p c then some 0 else none

/-- Value of a hexadecimal digit, as accepted by `urllib`'s `%`-escapes. -/
def hexVal (c : Char) : Option Nat :=
  if '0' ≤ c ∧ c ≤ '9' then some (c.toNat - '0'.toNat)
  else if 'a' ≤ c ∧ c ≤ 'f' then some (c.toNat - 'a'.toNat + 10)
  else if 'A' ≤ c ∧ c ≤ 'F' then some (c.toNat - 'A'.toNat + 10)
  else none

/-- First pass of `urllib.parse.unquote`: decode each `%XX` escape to a byte
(`Sum.inr`), leave every other character in place (`Sum.inl`).  A `%` not
followed by two hex digits stays literal, as in CPython. -/
def unquoteScan : Str → List (Sum Char Nat)
  | '%' :: a :: b :: rest =>
    match hexVal a, hexVal b with
    | some x, some y => Sum.inr (16 * x + y) :: unquoteScan rest
    | _, _ => Sum.inl '%' :: unquoteScan (a :: b :: rest)
  | c :: rest => Sum.inl c :: unquoteScan rest
  | [] => []

def utf8Cont (b : Nat) : Bool := 0x80 ≤ b && b ≤ 0xBF

/-- How many further escaped bytes after the lead byte `b1` form a valid
UTF-8 sequence at the head of `rest` (0 when the lead is not a valid start or
the continuation bytes do not follow). -/
def utf8SeqLen (b1 : Nat) (rest : List (Sum Char Nat)) : Nat :=
  if b1 < 0xC2 then 0
  else if b1 < 0xE0 then
    match rest with
    | Sum.inr b2 :: _ => if utf8Cont b2 then 1 else 0
    | _ => 0
  else if b1 < 0xF0 then
    match rest with
    | Sum.inr b2 :: Sum.inr b3 :: _ =>
      if utf8Cont b2 && (decide (b1 ≠ 0xE0) || decide (0xA0 ≤ b2))
          && (decide (b1 ≠ 0xED) || decide (b2 ≤ 0x9F)) then
        if utf8Cont b3 then 2 else 1
      else 0
    | Sum.inr b2 :: _ =>
      if utf8Cont b2 && (decide (b1 ≠ 0xE0) || decide (0xA0 ≤ b2))
          && (decide (b1 ≠ 0xED) || decide (b2 ≤ 0x9F)) then 1 else 0
    | _ => 0
  else if b1 < 0xF5 then
    match rest with
    | Sum.inr b2 :: Sum.inr b3 :: Sum.inr b4 :: _ =>
      if utf8Cont b2 && (decide (b1 ≠ 0xF0) || decide (0x90 ≤ b2))
          && (decide (b1 ≠ 0xF4) || decide (b2 ≤ 0x8F)) then
        if utf8Cont b3 then (if utf8Cont b4 then 3 else 2) else 1
      else 0
    | Sum.inr b2 :: Sum.inr b3 :: _ =>
      if utf8Cont b2 && (decide (b1 ≠ 0xF0) || decide (0x90 ≤ b2))
          && (decide (b1 ≠ 0xF4) || decide (b2 ≤ 0x8F)) then
        if utf8Cont b3 then 2 else 1
      else 0
    | Sum.inr b2 :: _ =>
      if utf8Cont b2 && (decide (b1 ≠ 0xF0) || decide (0x90 ≤ b2))
          && (decide (b1 ≠ 0xF4) || decide (b2 ≤ 0x8F)) then 1 else 0
    | _ => 0
  else 0

/-- Number of bytes taken from `rest` that a sequence led by `b1` consumes:
the full sequence when valid, otherwise only the lead byte (maximal-subpart
replacement, as CPython's `errors='replace'` does). -/
def utf8Consume (b1 : Nat) (rest : List (Sum Char Nat)) : Nat :=
  let k := utf8SeqLen b1 rest
  if b1 < 0xE0 then k
  else if b1 < 0xF0 then (if k = 2 then 2 else if k = 1 then 1 else 0)
  else (if k = 3 then 3 else if k ≥ 1 then k else 0)

/-- The scalar value decoded from `b1` and the consumed continuation bytes,
or U+FFFD when the sequence is not complete and valid. -/
def utf8Scalar (b1 : Nat) (rest : List (Sum Char Nat)) : Char :=
  if b1 < 0xE0 then
    match rest with
    | Sum.inr b2 :: _ =>
      if utf8SeqLen b1 rest = 1 then Char.ofNat ((b1 - 0xC0) * 0x40 + (b2 - 0x80))
      else Char.ofNat 0xFFFD
    | _ => Char.ofNat 0xFFFD
  else if b1 < 0xF0 then
    match rest with
    | Sum.inr b2 :: Sum.inr b3 :: _ =>
      if utf8SeqLen b1 rest = 2 then
        Char.ofNat ((b1 - 0xE0) * 0x1000 + (b2 - 0x80) * 0x40 + (b3 - 0x80))
      else Char.ofNat 0xFFFD
    | _ => Char.ofNat 0xFFFD
  else
    match rest with
    | Sum.inr b2 :: Sum.inr b3 :: Sum.inr b4 :: _ =>
      if utf8SeqLen b1 rest = 3 then
        Char.ofNat ((b1 - 0xF0) * 0x40000 + (b2 - 0x80) * 0x1000
          + (b3 - 0x80) * 0x40 + (b4 - 0x80))
      else Char.ofNat 0xFFFD
    | _ => Char.ofNat 0xFFFD

/-- Second pass of `unquote`: UTF-8 decoding of the escaped bytes with
`errors='replace'` semantics (invalid or incomplete sequences become U+FFFD,
consuming their maximal valid subpart); literal characters pass through,
interrupting any pending multibyte sequence exactly as a non-continuation
byte would in CPython. -/
def unquoteDecodeAux : Nat → List (Sum Char Nat) → Str
  | 0, _ => []
  | _ + 1, [] => []
  | fuel + 1, Sum.inl c :: rest => c :: unquoteDecodeAux fuel rest
  | fuel + 1, Sum.inr b1 :: rest =>
    if b1 < 0x80 then Char.ofNat b1 :: unquoteDecodeAux fuel rest
    else utf8Scalar b1 rest :: unquoteDecodeAux fuel (rest.drop (utf8Consume b1 rest))

/-- Decoding driver.  The fuel (one unit per consumed lead item, an upper
bound on the number of emitted characters) makes the recursion structural;
`l.length` fuel always suffices because every step consumes at least the item
it pattern-matches on. -/
def unquoteDecode (l : List (Sum Char Nat)) : Str := unquoteDecodeAux l.length l

/-- `urllib.parse.unquote(s)` with the default `utf-8`/`replace` arguments. -/
def unquote (s : Str) : Str := unquoteDecode (unquoteScan s)

/-- `posixpath.basename`: everything after the last `/`. -/
def basename (p : Str) : Str :=
  match rfindIdx (· = '/') p with
  | some i => p.drop (i + 1)
  | none => p

/-- Does any character strictly between `lo` (inclusive) and `hi` (exclusive)
differ from `.`?  Helper for `splitext`'s leading-dot rule. -/
def hasNonDotBetween (p : Str) (lo hi : Nat) : Bool :=
  ((p.take hi).drop lo).any (fun c => c ≠ '.')

/-- `posixpath.splitext`: split off the extension at the last `.`, provided it
comes after the last `/` and the basename does not consist solely of leading
dots up to that point. -/
def splitext (p : Str) : Str × Str :=
  let sepIdx : Int := match rfindIdx (· = '/') p with | some i => (i : Int) | none => -1
  let dotIdx : Int := match rfindIdx (· = '.') p with | some i => (i : Int) | none => -1
  if sepIdx < dotIdx then
    if hasNonDotBetween p (sepIdx + 1).toNat dotIdx.toNat then
      (p.take dotIdx.toNat, p.drop dotIdx.toNat)
    else (p, [])
  else (p, [])

/-- Characters allowed in a URL scheme after the first (`urllib.parse.scheme_chars`). -/
def isSchemeChar (c : Char) : Bool :=
  c.isAlpha || c.isDigit || c = '+' || c = '-' || c = '.'

/-- Continuation of `schemeSplit` once at least one valid character has been
read into `acc` (kept reversed). -/
def schemeRest : Str → Str → Option (Str × Str)
  | [], _ => none
  | c :: rest, acc =>
    if c = ':' then some (lowerStr acc.reverse, rest)
    else if isSchemeChar c then schemeRest rest (c :: acc)
    else none

/-- Scheme extraction of `urllib.parse.urlsplit`: a leading ASCII letter
followed by scheme characters up to a `:`.  Returns the lowercased scheme and
the remainder after the colon, or `none` when the URL carries no scheme. -/
def schemeSplit : Str → Option (Str × Str)
  | [] => none
  | c :: rest => if c.isAlpha then schemeRest rest [c] else none

def notNetlocEnd (c : Char) : Bool := !(c = '/' || c = '?' || c = '#')

structure SplitResult where
  scheme : Str
  netloc : Str
  path : Str
  query : Str
  fragment : Str
deriving DecidableEq, Repr

/-- `urllib.parse.urlsplit(url, defaultScheme)` with `allow_fragments=True`.
The WHATWG control-character stripping added by later CPython security patches
and the IPv6 bracket validation are omitted: no input in this development
contains control characters or brackets. -/
def pyUrlsplit (url defaultScheme : Str) : SplitResult :=
  let p1 : Str × Str :=
    match schemeSplit url with
    | some sr => sr
    | none => (defaultScheme, url)
  let scheme := p1.1
  let rest := p1.2
  let p2 : Str × Str :=
    if rest.take 2 = ['/', '/'] then
      ((rest.drop 2).takeWhile notNetlocEnd, (rest.drop 2).dropWhile notNetlocEnd)
    else ([], rest)
  let netloc := p2.1
  let rest2 := p2.2
  let frag : Str := (rest2.dropWhile (· ≠ '#')).drop 1
  let rest3 := rest2.takeWhile (· ≠ '#')
  let query : Str := (rest3.dropWhile (· ≠ '?')).drop 1
  let path := rest3.takeWhile (· ≠ '?')
  ⟨scheme, netloc, path, query, frag⟩

structure ParseResult where
  scheme : Str
  netloc : Str
  path : Str
  params : Str
  query : Str
  fragment : Str
deriving DecidableEq, Repr

def uses_relative : List Str :=
  ["", "ftp", "http", "gopher", "nntp", "imap", "wais", "file", "https", "shttp",
   "mms", "prospero", "rtsp", "rtspu", "sftp", "svn", "svn+ssh", "ws", "wss"].map (·.data)

def uses_netloc : List Str :=
  ["", "ftp", "http", "gopher", "nntp", "telnet", "imap", "wais", "file", "mms",
   "https", "shttp", "snews", "prospero", "rtsp", "rtspu", "rsync", "svn",
   "svn+ssh", "sftp", "nfs", "git", "git+ssh", "ws", "wss"].map (·.data)

def uses_params : List Str :=
  ["", "ftp", "hdl", "prospero", "http", "imap", "https", "shttp", "rtsp",
   "rtspu", "sip", "sips", "mms", "sftp", "tel"].map (·.data)

/-- `urllib.parse._splitparams`: split `;params` off the last path segment. -/
def splitParams (p : Str) : Str × Str :=
  let start : Nat := match rfindIdx (· = '/') p with | some i => i | none => 0
  match (p.drop start).findIdx? (· = ';') with
  | some k => (p.take (start + k), p.drop (start + k + 1))
  | none => (p, [])

/-- `urllib.parse.urlparse(url, defaultScheme)`. -/
def pyUrlparse (url defaultScheme : Str) : ParseResult :=
  let s := pyUrlsplit url defaultScheme
  if s.scheme ∈ uses_params ∧ ';' ∈ s.path then
    let pp := splitParams s.path
    ⟨s.scheme, s.netloc, pp.1, pp.2, s.query, s.fragment⟩
  else ⟨s.scheme, s.netloc, s.path, [], s.query, s.fragment⟩

/-- `urllib.parse.urlunsplit`. -/
def pyUrlunsplit (scheme netloc path query fragment : Str) : Str :=
  let url1 :=
    if netloc ≠ [] ∨ path.take 2 = ['/', '/'] then
      let p := if path ≠ [] ∧ path.take 1 ≠ ['/'] then '/' :: path else path
      '/' :: '/' :: (netloc ++ p)
    else path
  let url2 := if scheme ≠ [] then scheme ++ ':' :: url1 else url1
  let url3 := if query ≠ [] then url2 ++ '?' :: query else url2
  if fragment ≠ [] then url3 ++ '#' :: fragment else url3

/-- `urllib.parse.urlunparse`. -/
def pyUrlunparse (r : ParseResult) : Str :=
  let path := if r.params ≠ [] then r.path ++ ';' :: r.params else r.path
  pyUrlunsplit r.scheme r.netloc path r.query r.fragment

/-- `segments[1:-1] = filter(None, segments[1:-1])`: drop empty segments other
than the first and last. -/
def filterMiddle (l : List Str) : List Str :=
  match l with
  | [] => []
  | s0 :: rest =>
    match rest.getLast? with
    | none => [s0]
    | some lastSeg => s0 :: (rest.dropLast.filter (fun s => s ≠ [])) ++ [lastSeg]

/-- The `resolved_path` loop of `urljoin`: `..` pops, `.` is dropped,
anything else is appended. -/
def resolveSegments (segments : List Str) : List Str :=
  segments.foldl
    (fun acc seg =>
      if seg = ['.', '.'] then acc.dropLast
      else if seg = ['.'] then acc
      else acc ++ [seg]) []

/-- `urllib.parse.urljoin(base, url)`, CPython 3.11. -/
def pyUrljoin (base url : Str) : Str :=
  if base = [] then url
  else if url = [] then base
  else
    let b := pyUrlparse base []
    let u := pyUrlparse url b.scheme
    if u.scheme ≠ b.scheme ∨ u.scheme ∉ uses_relative then url
    else
      if u.scheme ∈ uses_netloc ∧ u.netloc ≠ [] then
        pyUrlunparse ⟨u.scheme, u.netloc, u.path, u.params, u.query, u.fragment⟩
      else
        let netloc := if u.scheme ∈ uses_netloc then b.netloc else u.netloc
        if u.path = [] ∧ u.params = [] then
          let query := if u.query = [] then b.query else u.query
          pyUrlunparse ⟨u.scheme, netloc, b.path, b.params, query, u.fragment⟩
        else
          let baseParts0 := splitOnChar '/' b.path
          let baseParts :=
            if baseParts0.getLast?.getD [] ≠ [] then baseParts0.dropLast else baseParts0
          let segments :=
            if u.path.take 1 = ['/'] then splitOnChar '/' u.path
            else filterMiddle (baseParts ++ splitOnChar '/' u.path)
          let resolved := resolveSegments segments
          let resolved2 :=
            if segments.getLast?.getD [] = ['.'] ∨ segments.getLast?.getD [] = ['.', '.'] then
              resolved ++ [[]]
            else resolved
          let joined := joinWith '/' resolved2
          let finalPath := if joined = [] then ['/'] else joined
          pyUrlunparse ⟨u.scheme, netloc, finalPath, u.params, u.query, u.fragment⟩

/-! ## URL canonicalization and naming utilities of app.py -/

/-- The image-extension alternatives of the pattern
`\.(png|jpg|jpeg|gif|webp)` in the order the regex engine tries them. -/
def extTokens : List Str := ["png", "jpg", "jpeg", "gif", "webp"].map (·.data)

/-- Does the pattern `\.(png|jpg|jpeg|gif|webp)` (with `re.IGNORECASE`) match
at the head of `s`?  Returns the length of the match (alternatives are tried
in order, as `re` does). -/
def matchExtAt : Str → Option Nat
  | [] => none
  | c :: rest =>
    if c = '.' then
      match extTokens.find? (fun t => leadsWith t (lowerStr rest)) with
      | some t => some (1 + t.length)
      | none => none
    else none

/-- `re.search(r'\.(png|jpg|jpeg|gif|webp)', s, re.IGNORECASE).end()`:
the end position of the leftmost match, if any. -/
def extSearch : Str → Option Nat
  | [] => none
  | c :: rest =>
    match matchExtAt (c :: rest) with
    | some e => some e
    | none => (extSearch rest).map (· + 1)

/-- `re.search(r'\?.*', s).group(0)` (or `''` with no match): from the first
`?` to the end of its line (`.` does not match a newline). -/
def querySuffix : Str → Str
  | [] => []
  | c :: rest => if c = '?' then c :: rest.takeWhile (· ≠ '\n') else querySuffix rest

/-- `clean_fandom_url` from app.py: when the URL contains
`wikia.nocookie.net`, cut everything after the first recognized image
extension and reattach the query string found by `re.search(r'\?.*', url)`. -/
def clean_fandom_url (url : Str) : Str :=
  if containsSub "wikia.nocookie.net".data url then
    match extSearch url with
    | some e => url.take e ++ querySuffix url
    | none => url
  else url

/-- Characters removed by `sanitize_filename`'s `re.sub(r'[\\/*?:"<>|]', "", ·)`. -/
def invalidFileChar (c : Char) : Bool :=
  c = '\\' || c = '/' || c = '*' || c = '?' || c = ':' || c = '"' || c = '<' || c = '>' || c = '|'

/-- `sanitize_filename` from app.py: underscores to spaces, strip
Windows-invalid characters, truncate to 100 characters. -/
def sanitize_filename (filename : Str) : Str :=
  (((filename.map (fun c => if c = '_' then ' ' else c)).filter
    (fun c => !invalidFileChar c)).take 100)

/-! ## The Extractor (the /scrape element loop) -/

/-- An `<img>` element as seen through the queries the code performs on it.
`figcaptionText` is `get_text(strip=True)` of the `figcaption` inside the
nearest `figure` ancestor, `none` when there is no such ancestor or it has no
`figcaption`.  (BeautifulSoup itself is an external collaborator; the element
is the data the parse hands to the loop.) -/
structure Img where
  dataSrc : Option Str
  srcAttr : Option Str
  altAttr : Option Str
  figcaptionText : Option Str
deriving DecidableEq, Repr

/-- An emitted record `{'src': ..., 'alt': ...}` of the /scrape response. -/
structure Record where
  src : Str
  alt : Str
deriving DecidableEq, Repr

/-- `img.get('data-src') or img.get('src')`: Python `or` falls through on a
missing attribute and on an empty string. -/
def chosenSrc (img : Img) : Option Str :=
  match img.dataSrc with
  | some d => if d ≠ [] then some d else img.srcAttr
  | none => img.srcAttr

/-- Rule 3 / Rule 4 name derivation from the URL:
`os.path.splitext(unquote(os.path.basename(urlparse(src).path)))[0]`. -/
def name_from_url (src : Str) : Str :=
  (splitext (unquote (basename (pyUrlparse src []).path))).1

/-- The `is_suspicious` test of app.py (contains `http:`, `https:` or `.php`
case-insensitively, or is longer than 80 characters). -/
def is_suspicious (name : Str) : Bool :=
  containsSub "http:".data (lowerStr name) || containsSub "https:".data (lowerStr name)
    || containsSub ".php".data (lowerStr name) || decide (80 < name.length)

/-- Rule 4 of app.py: replace a suspicious name by the URL-derived name when
that derivation is non-empty, otherwise keep the suspicious name. -/
def suspicious_override (src name : Str) : Str :=
  if is_suspicious name then
    let n := name_from_url src
    if n ≠ [] then n else name
  else name

/-- Rules 1-3 of app.py: `alt` text, else `figcaption` text, else the URL
basename; `none` when all three produce nothing (the element is skipped). -/
def derived_name (img : Img) (src : Str) : Option Str :=
  match (match img.altAttr with
         | some a => if pyStrip a = [] then none else some (pyStrip a)
         | none => none) with
  | some n => some n
  | none =>
    match (match img.figcaptionText with
           | some t => if t = [] then none else some t
           | none => none) with
    | some n => some n
    | none =>
      let n3 := name_from_url src
      if n3 = [] then none else some n3

/-- One iteration of the /scrape element loop, threading the `seen_srcs` set
and the output list. -/
def process_img (pageUrl : Str) (st : List Str × List Record) (img : Img) :
    List Str × List Record :=
  match chosenSrc img with
  | none => st
  | some s0 =>
    if s0 = [] then st
    else
      let src := clean_fandom_url (pyUrljoin pageUrl s0)
      if src ∈ st.1 then st
      else
        match derived_name img src with
        | none => st
        | some name =>
          let final := (suspicious_override src name).map (fun c => if c = '_' then ' ' else c)
          (src :: st.1, st.2 ++ [⟨src, final⟩])

/-- The element loop of the /scrape endpoint: fold `process_img` over the
`<img>` elements in document order.  (The page fetch preceding the loop is an
external collaborator per the spec's scope; `pageUrl` is the request URL.) -/
def scrape (pageUrl : Str) (imgs : List Img) : List Record :=
  (imgs.foldl (process_img pageUrl) ([], [])).2

/-! ## The Batch Fetcher (/download-selected) -/

/-- An HTTP response as the code consumes it: status, `content-type` header
(`none` when absent), body bytes. -/
structure Response where
  status : Nat
  contentType : Option Str
  body : Body
deriving DecidableEq, Repr

/-- The network oracle: `none` is a transport error (DNS failure, refused
connection, timeout) — `requests.get` raising `RequestException`. -/
abbrev Fetch := Str → Option Response

/-- One entry of the caller-supplied image list (`src`/`alt` keys of the
JSON objects; a missing key is `none`). -/
structure ImageInfo where
  src : Option Str
  alt : Option Str
deriving DecidableEq, Repr

/-- Extension inference of `download_and_prepare` (and `download_image`):
ordered substring checks over the `content-type` header, `.jpg` by default.
An absent header (`none`) and an empty header string are both falsy. -/
def get_extension (contentType : Option Str) : Str :=
  match contentType with
  | none => ".jpg".data
  | some ct =>
    if containsSub "jpeg".data ct then ".jpg".data
    else if containsSub "png".data ct then ".png".data
    else if containsSub "gif".data ct then ".gif".data
    else if containsSub "svg".data ct then ".svg".data
    else ".jpg".data

/-- `response.raise_for_status()` raises exactly for 4xx and 5xx statuses. -/
def raisesForStatus (status : Nat) : Bool := decide (400 ≤ status) && decide (status < 600)

/-- The worker body of `download_and_prepare` up to (but excluding) the
locked duplicate check: `none` on a missing/empty `src`, a transport error or
an error status; otherwise the candidate `(filename, content)` built from the
sanitized `alt` (default `'no_alt_name'`) plus the inferred extension. -/
def prepare_nodedup (fetch : Fetch) (info : ImageInfo) : Option (Str × Body) :=
  match info.src with
  | none => none
  | some u =>
    if u = [] then none
    else
      match fetch u with
      | none => none
      | some resp =>
        if raisesForStatus resp.status then none
        else
          some (sanitize_filename (info.alt.getD "no_alt_name".data)
                  ++ get_extension resp.contentType, resp.body)

/-- `download_and_prepare` from app.py, with the shared `seen_filenames` set
passed explicitly: the lock-protected region is the check-and-insert on that
set (first writer wins, a colliding later result is dropped). -/
def download_and_prepare (fetch : Fetch) (info : ImageInfo) (seen : List Str) :
    Option (Str × Body) × List Str :=
  match info.src with
  | none => (none, seen)
  | some u =>
    if u = [] then (none, seen)
    else
      match fetch u with
      | none => (none, seen)
      | some resp =>
        if raisesForStatus resp.status then (none, seen)
        else
          let filename := sanitize_filename (info.alt.getD "no_alt_name".data)
                            ++ get_extension resp.contentType
          if filename ∈ seen then (none, seen)
          else (some (filename, resp.body), filename :: seen)

/-- The `as_completed` collection loop: workers complete in the order given
by `order` (an arbitrary permutation of the submitted list — concurrency is
modelled by quantifying over it); each successful result is written to the
zip archive as it arrives. -/
def fetchZipAux (fetch : Fetch) (seen : List Str) : List ImageInfo → List (Str × Body)
  | [] => []
  | i :: rest =>
    match download_and_prepare fetch i seen with
    | (some nb, seen2) => nb :: fetchZipAux fetch seen2 rest
    | (none, seen2) => fetchZipAux fetch seen2 rest

/-- The archive produced by one batch, as the list of its `(filename, bytes)`
entries in write order. -/
def fetchZipEntries (fetch : Fetch) (order : List ImageInfo) : List (Str × Body) :=
  fetchZipAux fetch [] order

/-- The /download-selected endpoint: an empty image list is rejected with the
400 error `Image list is required` before any download is attempted;
otherwise the batch runs and the (possibly empty) archive is returned.
`order` is the completion order of the workers (a permutation of `images`). -/
def download_selected (images : List ImageInfo) (order : List ImageInfo)
    (fetch : Fetch) : Except Str (List (Str × Body)) :=
  if images = [] then Except.error "Image list is required".data
  else Except.ok (fetchZipEntries fetch order)

/-- A URL is absolute when it carries a scheme (`urlparse` finds a non-empty
scheme). -/
abbrev isAbsoluteUrl (u : Str) : Prop := (pyUrlsplit u []).scheme ≠ []

/-- Reference behaviour for first-writer-wins deduplication, stated
independently of the worker code: keep the first pair carrying each name. -/
def firstWinsAux (seen : List Str) : List (Str × Body) → List (Str × Body)
  | [] => []
  | (n, b) :: rest =>
    if n ∈ seen then firstWinsAux seen rest
    else (n, b) :: firstWinsAux (n :: seen) rest

/-- Keep only the first entry for each filename. -/
def firstWins (l : List (Str × Body)) : List (Str × Body) := firstWinsAux [] l

/-! ## Specification-side definitions

These formulate what the spec's sentences claim, independently of the code's
own definitions, so that the theorems compare the two. -/

/-- The content-type → extension mapping exactly as the spec's sentence
states it: `image/jpeg→.jpg`, `image/png→.png`, `image/gif→.gif`,
`image/svg*→.svg`, default `.jpg` for an absent or unrecognized header. -/
def claimed_extension (contentType : Option Str) : Str :=
  match contentType with
  | none => ".jpg".data
  | some ct =>
    if ct = "image/jpeg".data then ".jpg".data
    else if ct = "image/png".data then ".png".data
    else if ct = "image/gif".data then ".gif".data
    else if leadsWith "image/svg".data ct then ".svg".data
    else ".jpg".data

/-- Independent statement of a recognized-image-extension match of the
canonicalization pattern at position `i` of `url`: a literal `.` there,
followed (case-insensitively) by the first alternative of
`png|jpg|jpeg|gif|webp` that fits. -/
def specMatchTokenAt (url : Str) (i : Nat) : Option Str :=
  if (url.drop i).take 1 = ['.'] then
    extTokens.find? (fun t => leadsWith t (lowerStr (url.drop (i + 1))))
  else none

/-- Independent statement of `re.search(r'\?.*', url)`: the first `?` (if
any) together with the following characters up to the end of its line. -/
def specQuery (url : Str) : Str :=
  let q := url.dropWhile (· ≠ '?')
  q.take 1 ++ (q.drop 1).takeWhile (· ≠ '\n')

/-! ## Theorems -/

/-- C1, counterexample: `download_selected` given an empty request list
returns the 400 error `Image list is required`, never an archive — the claim
that empty input yields a valid empty archive is false on the code. -/
theorem c1_counterexample :
    download_selected [] [] (fun _ => none) = Except.error "Image list is required".data
    ∧ ∀ entries : List (Str × Body),
        download_selected [] [] (fun _ => none) ≠ Except.ok entries := by
  refine ⟨rfl, ?_⟩
  intro entries h
  simp [download_selected] at h

/-- C1, amended: for every completion order and network behaviour, an empty
image list is rejected up front with the `Image list is required` input error
(HTTP 400); the empty-input case never reaches the download pipeline. -/
theorem c1_empty_list_rejected (order : List ImageInfo) (fetch : Fetch) :
    download_selected [] order fetch = Except.error "Image list is required".data := rfl

/-- C6, counterexample: canonicalization is gated on a substring test over
the whole URL, not on the host.  This URL's host is `evil.com` — it does not
match the CDN pattern — yet the URL does not pass through unchanged. -/
theorem c6_counterexample :
    (pyUrlsplit "https://evil.com/wikia.nocookie.net/pic.png/extra?x=1".data []).netloc
        = "evil.com".data
    ∧ clean_fandom_url "https://evil.com/wikia.nocookie.net/pic.png/extra?x=1".data
        = "https://evil.com/wikia.nocookie.net/pic.png?x=1".data
    ∧ clean_fandom_url "https://evil.com/wikia.nocookie.net/pic.png/extra?x=1".data
        ≠ "https://evil.com/wikia.nocookie.net/pic.png/extra?x=1".data :=
  ⟨by decide, by decide, by decide⟩

/-- C6, amended: canonicalization applies only when the URL contains the
substring `wikia.nocookie.net` anywhere in the URL (not specifically in its
host); every URL not containing that substring passes through unchanged. -/
theorem c6_substring_gate (url : Str)
    (h : containsSub "wikia.nocookie.net".data url = false) :
    clean_fandom_url url = url := by
  simp [clean_fandom_url, h]

theorem c6_substring_gate_witness :
    containsSub "wikia.nocookie.net".data "https://example.com/a.png".data = false
    ∧ clean_fandom_url "https://example.com/a.png".data = "https://example.com/a.png".data :=
  ⟨by decide, c6_substring_gate _ (by decide)⟩

/-- C7, counterexample: the code infers the extension by ordered substring
checks, not by the exact mapping the claim states: `image/apng` is not one of
the claim's recognized values (so the claim demands the default `.jpg`), but
the code returns `.png` because `png` occurs inside the header value. -/
theorem c7_counterexample :
    get_extension (some "image/apng".data) = ".png".data
    ∧ claimed_extension (some "image/apng".data) = ".jpg".data
    ∧ get_extension (some "image/apng".data) ≠ claimed_extension (some "image/apng".data) :=
  ⟨by decide, by decide, by decide⟩

/-- C7, amended: the extension is inferred solely from the content-type
header by ordered substring tests — a header containing `jpeg` gives `.jpg`,
else one containing `png` gives `.png`, else `gif` gives `.gif`, else `svg`
gives `.svg`, and an absent header or one containing none of the four tokens
gives the default `.jpg`; in particular the four exact values the spec lists
map as stated. -/
theorem c7_content_type_mapping :
    get_extension none = ".jpg".data
    ∧ (∀ ct : Str, containsSub "jpeg".data ct = true → get_extension (some ct) = ".jpg".data)
    ∧ (∀ ct : Str, containsSub "jpeg".data ct = false → containsSub "png".data ct = true →
        get_extension (some ct) = ".png".data)
    ∧ (∀ ct : Str, containsSub "jpeg".data ct = false → containsSub "png".data ct = false →
        containsSub "gif".data ct = true → get_extension (some ct) = ".gif".data)
    ∧ (∀ ct : Str, containsSub "jpeg".data ct = false → containsSub "png".data ct = false →
        containsSub "gif".data ct = false → containsSub "svg".data ct = true →
        get_extension (some ct) = ".svg".data)
    ∧ (∀ ct : Str, containsSub "jpeg".data ct = false → containsSub "png".data ct = false →
        containsSub "gif".data ct = false → containsSub "svg".data ct = false →
        get_extension (some ct) = ".jpg".data)
    ∧ get_extension (some "image/jpeg".data) = ".jpg".data
    ∧ get_extension (some "image/png".data) = ".png".data
    ∧ get_extension (some "image/gif".data) = ".gif".data
    ∧ get_extension (some "image/svg+xml".data) = ".svg".data := by
  refine ⟨rfl, ?_, ?_, ?_, ?_, ?_, by decide, by decide, by decide, by decide⟩
  all_goals intro ct
  all_goals intros
  all_goals simp [get_extension, *]

theorem c7_content_type_mapping_witness :
    containsSub "jpeg".data "image/jpeg".data = true
    ∧ get_extension (some "image/jpeg".data) = ".jpg".data :=
  ⟨by decide, c7_content_type_mapping.2.1 "image/jpeg".data (by decide)⟩

/-- C4: a derived name containing (case-insensitively) `http:`, `https:` or
`.php`, or longer than 80 characters, is re-derived from the URL basename,
the replacement happening exactly when that re-derivation is non-empty (the
original suspicious name is kept otherwise); a name with none of those
substrings is overridden only when its length exceeds 80. -/
theorem c4_suspicious_name_override (src name : Str) :
    ((containsSub "http:".data (lowerStr name) = true
        ∨ containsSub "https:".data (lowerStr name) = true
        ∨ containsSub ".php".data (lowerStr name) = true
        ∨ 80 < name.length) →
      suspicious_override src name =
        (if name_from_url src ≠ [] then name_from_url src else name))
    ∧ (containsSub "http:".data (lowerStr name) = false →
        containsSub "https:".data (lowerStr name) = false →
        containsSub ".php".data (lowerStr name) = false →
        name.length ≤ 80 →
        suspicious_override src name = name) := by
  constructor
  · intro h
    have hs : is_suspicious name = true := by
      rcases h with h | h | h | h <;> simp [is_suspicious, h]
    simp [suspicious_override, hs]
  · intro h1 h2 h3 h4
    have hs : is_suspicious name = false := by
      simp [is_suspicious, h1, h2, h3]
      omega
    simp [suspicious_override, hs]

theorem c4_suspicious_name_override_witness :
    suspicious_override "https://h/Some_Image.png?cb=123".data "http://example.com/x".data
      = "Some_Image".data := by
  have h := (c4_suspicious_name_override "https://h/Some_Image.png?cb=123".data
    "http://example.com/x".data).1 (Or.inl (by decide))
  rw [h]
  decide

/-- One step of the element loop, once the chosen source attribute value is
known: the element is either skipped (duplicate URL or no derivable name) or
emits exactly one record whose URL is the canonicalized resolution of that
value against the page URL. -/
theorem process_img_of_chosen (base : Str) (st : List Str × List Record) (img : Img)
    (v : Str) (hv : chosenSrc img = some v) (hne : v ≠ []) :
    process_img base st img = st
    ∨ ∃ name, process_img base st img =
        (clean_fandom_url (pyUrljoin base v) :: st.1,
         st.2 ++ [⟨clean_fandom_url (pyUrljoin base v), name⟩]) := by
  unfold process_img
  rw [hv]
  by_cases hseen : clean_fandom_url (pyUrljoin base v) ∈ st.1
  · left
    simp [hne, hseen]
  · cases hd : derived_name img (clean_fandom_url (pyUrljoin base v)) with
    | none => left; simp [hne, hseen, hd]
    | some nm =>
      right
      refine ⟨(suspicious_override (clean_fandom_url (pyUrljoin base v)) nm).map
        (fun c => if c = '_' then ' ' else c), ?_⟩
      simp [hne, hseen, hd]

/-- C8, counterexample: an element carrying both attributes with different
values — `data-src` present but empty, `src` non-empty — resolves from
`src`, not from `data-src` (whose resolution would be the page URL itself). -/
theorem c8_counterexample :
    (scrape "https://example.com/page".data
        [⟨some [], some "https://example.com/a.png".data, some "x".data, none⟩]).map Record.src
      = ["https://example.com/a.png".data]
    ∧ ([] : Str) ≠ "https://example.com/a.png".data
    ∧ clean_fandom_url (pyUrljoin "https://example.com/page".data [])
        ≠ "https://example.com/a.png".data := by
  refine ⟨by decide, by decide, by decide⟩

/-- C8, amended: the `data-src` preference holds for a non-empty `data-src`
value: such an element's source resolves from `data-src` (any record it emits
carries the canonicalized resolution of the `data-src` value), and an element
with neither attribute is skipped.  (Python's `or` treats an empty `data-src`
string as absent — that case falls back to `src`.) -/
theorem c8_data_src_preference :
    (∀ (base : Str) (st : List Str × List Record) (img : Img) (d : Str),
        img.dataSrc = some d → d ≠ [] →
        chosenSrc img = some d
        ∧ (process_img base st img = st
           ∨ ∃ name, process_img base st img =
               (clean_fandom_url (pyUrljoin base d) :: st.1,
                st.2 ++ [⟨clean_fandom_url (pyUrljoin base d), name⟩])))
    ∧ (∀ (base : Str) (st : List Str × List Record) (img : Img),
        img.dataSrc = none → img.srcAttr = none → process_img base st img = st) := by
  constructor
  · intro base st img d hd hne
    have hc : chosenSrc img = some d := by simp [chosenSrc, hd, hne]
    exact ⟨hc, process_img_of_chosen base st img d hc hne⟩
  · intro base st img h1 h2
    simp [process_img, chosenSrc, h1, h2]

theorem c8_data_src_preference_witness :
    chosenSrc ⟨some "/a/B_c.png".data, some "/other.png".data, some "n".data, none⟩
      = some "/a/B_c.png".data :=
  (c8_data_src_preference.1 [] ([], [])
    ⟨some "/a/B_c.png".data, some "/other.png".data, some "n".data, none⟩
    "/a/B_c.png".data rfl (by decide)).1

/-- C10: an element whose `data-src` attribute is present but empty falls
back to `src` — its emitted source (if any) resolves from the `src` value —
and is skipped entirely when `src` is also absent or empty. -/
theorem c10_empty_data_src_fallback :
    (∀ (base : Str) (st : List Str × List Record) (img : Img) (s : Str),
        img.dataSrc = some [] → img.srcAttr = some s → s ≠ [] →
        chosenSrc img = some s
        ∧ (process_img base st img = st
           ∨ ∃ name, process_img base st img =
               (clean_fandom_url (pyUrljoin base s) :: st.1,
                st.2 ++ [⟨clean_fandom_url (pyUrljoin base s), name⟩])))
    ∧ (∀ (base : Str) (st : List Str × List Record) (img : Img),
        img.dataSrc = some [] → (img.srcAttr = none ∨ img.srcAttr = some []) →
        process_img base st img = st) := by
  constructor
  · intro base st img s hd hs hne
    have hc : chosenSrc img = some s := by simp [chosenSrc, hd, hs]
    exact ⟨hc, process_img_of_chosen base st img s hc hne⟩
  · intro base st img hd hs
    rcases hs with h | h <;> simp [process_img, chosenSrc, hd, h]

theorem c10_empty_data_src_fallback_witness :
    chosenSrc ⟨some [], some "/other.png".data, some "n".data, none⟩
      = some "/other.png".data :=
  (c10_empty_data_src_fallback.1 [] ([], [])
    ⟨some [], some "/other.png".data, some "n".data, none⟩
    "/other.png".data rfl rfl (by decide)).1

/-- The worker factors through its fetch part: `download_and_prepare` is the
lock-free candidate computation followed by the locked check-and-insert. -/
theorem download_and_prepare_factor (fetch : Fetch) (info : ImageInfo) (seen : List Str) :
    download_and_prepare fetch info seen =
      match prepare_nodedup fetch info with
      | none => (none, seen)
      | some nb => if nb.1 ∈ seen then (none, seen) else (some nb, nb.1 :: seen) := by
  unfold download_and_prepare prepare_nodedup
  cases info.src with
  | none => rfl
  | some u =>
    by_cases hu : u = []
    · simp [hu]
    · cases hf : fetch u with
      | none => simp [hu, hf]
      | some resp =>
        by_cases hst : raisesForStatus resp.status = true
        · simp [hu, hf, hst]
        · simp [hu, hf, hst]

/-- The collection loop equals first-writer-wins deduplication of the
per-item candidates, for any state of the shared filename set. -/
theorem fetchZipAux_firstWins (fetch : Fetch) :
    ∀ (order : List ImageInfo) (seen : List Str),
      fetchZipAux fetch seen order = firstWinsAux seen (order.filterMap (prepare_nodedup fetch)) := by
  intro order
  induction order with
  | nil => intro seen; rfl
  | cons i rest ih =>
    intro seen
    show (match download_and_prepare fetch i seen with
          | (some nb, seen2) => nb :: fetchZipAux fetch seen2 rest
          | (none, seen2) => fetchZipAux fetch seen2 rest) = _
    rw [download_and_prepare_factor]
    cases hp : prepare_nodedup fetch i with
    | none => simp [List.filterMap_cons, hp, ih]
    | some nb =>
      by_cases hseen : nb.1 ∈ seen
      · simp [List.filterMap_cons, hp, firstWinsAux, hseen, ih]
      · simp [List.filterMap_cons, hp, firstWinsAux, hseen, ih]

/-- First-writer-wins output carries no duplicate filename, and none that was
already reserved. -/
theorem firstWinsAux_nodup (l : List (Str × Body)) :
    ∀ seen, ((firstWinsAux seen l).map Prod.fst).Nodup
      ∧ ∀ n ∈ (firstWinsAux seen l).map Prod.fst, n ∉ seen := by
  induction l with
  | nil => intro seen; simp [firstWinsAux]
  | cons p rest ih =>
    intro seen
    by_cases h : p.1 ∈ seen
    · have := ih seen
      simpa [firstWinsAux, h] using this
    · obtain ⟨ih1, ih2⟩ := ih (p.1 :: seen)
      refine ⟨?_, ?_⟩
      · simp only [firstWinsAux, h, if_false, List.map_cons, List.nodup_cons]
        exact ⟨fun hmem => (ih2 p.1 hmem) (List.mem_cons_self p.1 seen), ih1⟩
      · intro m hm
        simp only [firstWinsAux, h, if_false, List.map_cons, List.mem_cons] at hm
        rcases hm with rfl | hm
        · exact h
        · intro hmse
          exact (ih2 m hm) (List.mem_cons_of_mem _ hmse)

/-- A `filterMap` ignores exactly the elements its function rejects. -/
theorem filterMap_on_filter_isSome {α β : Type} (f : α → Option β) (l : List α) :
    l.filterMap f = (l.filter (fun x => (f x).isSome)).filterMap f := by
  induction l with
  | nil => rfl
  | cons x rest ih =>
    cases hf : f x <;> simp [List.filterMap_cons, List.filter_cons, hf, ih]

/-- C2: in every batch (under every completion order and network behaviour),
the archive equals first-writer-wins deduplication of the per-request
candidates — a later result whose sanitized-name-plus-inferred-extension
collides with an already-written entry is dropped, never renamed — and hence
the archive's filenames are unique. -/
theorem c2_first_writer_wins (fetch : Fetch) (order : List ImageInfo) :
    fetchZipEntries fetch order = firstWins (order.filterMap (prepare_nodedup fetch))
    ∧ ((fetchZipEntries fetch order).map Prod.fst).Nodup := by
  have he := fetchZipAux_firstWins fetch order []
  refine ⟨he, ?_⟩
  rw [fetchZipEntries, he]
  exact (firstWinsAux_nodup _ []).1

/-- C9: an individual transport failure (fetch oracle `none`: DNS failure,
refused connection, timeout) or error status (4xx/5xx, where
`raise_for_status` raises) is converted to "no result" inside the worker: a
batch whose only request is unreachable, or answers with an error status,
returns a valid archive with zero entries rather than an error; and in any
batch, failing items are dropped with no effect on the other items. -/
theorem c9_transport_failures_dropped :
    (∀ (fetch : Fetch) (info : ImageInfo) (u : Str),
        info.src = some u → fetch u = none →
        download_selected [info] [info] fetch = Except.ok [])
    ∧ (∀ (fetch : Fetch) (info : ImageInfo) (u : Str) (resp : Response),
        info.src = some u → fetch u = some resp → 400 ≤ resp.status → resp.status < 600 →
        download_selected [info] [info] fetch = Except.ok [])
    ∧ (∀ (fetch : Fetch) (order : List ImageInfo),
        fetchZipEntries fetch order =
          fetchZipEntries fetch (order.filter (fun i => (prepare_nodedup fetch i).isSome))) := by
  refine ⟨?_, ?_, ?_⟩
  · intro fetch info u h1 h2
    by_cases hu : u = []
    · simp [download_selected, fetchZipEntries, fetchZipAux, download_and_prepare, h1, hu]
    · simp [download_selected, fetchZipEntries, fetchZipAux, download_and_prepare, h1, h2, hu]
  · intro fetch info u resp h1 h2 h3 h4
    have hst : raisesForStatus resp.status = true := by
      simp [raisesForStatus]
      omega
    by_cases hu : u = []
    · simp [download_selected, fetchZipEntries, fetchZipAux, download_and_prepare, h1, hu]
    · simp [download_selected, fetchZipEntries, fetchZipAux, download_and_prepare,
        h1, h2, hu, hst]
  · intro fetch order
    rw [fetchZipEntries, fetchZipEntries, fetchZipAux_firstWins, fetchZipAux_firstWins,
      ← filterMap_on_filter_isSome]

theorem c9_transport_failures_dropped_witness :
    download_selected [⟨some "http://a/x.png".data, some "A".data⟩]
        [⟨some "http://a/x.png".data, some "A".data⟩] (fun _ => none) = Except.ok [] :=
  c9_transport_failures_dropped.1 (fun _ => none)
    ⟨some "http://a/x.png".data, some "A".data⟩ "http://a/x.png".data rfl rfl

/-- The head-position case of the match correspondence: the scanner's match
at position 0 is the spec-side token match there. -/
theorem specMatchTokenAt_zero (url : Str) :
    matchExtAt url = (specMatchTokenAt url 0).map (fun t => 1 + t.length) := by
  cases url with
  | nil => rfl
  | cons c rest =>
    by_cases hc : c = '.'
    · subst hc
      simp only [matchExtAt, specMatchTokenAt, List.drop_zero, List.take_cons, if_pos rfl,
        List.drop_succ_cons, List.drop_zero]
      cases extTokens.find? (fun t => leadsWith t (lowerStr rest)) <;> simp
    · simp [matchExtAt, specMatchTokenAt, hc]

/-- Shifting the match position across a leading character. -/
theorem specMatchTokenAt_succ (c : Char) (url : Str) (i : Nat) :
    specMatchTokenAt (c :: url) (i + 1) = specMatchTokenAt url i := by
  simp [specMatchTokenAt, List.drop_succ_cons]

/-- Completeness of the scanning search: a spec-side token match at the
earliest matching position `i` forces `extSearch` to report the match end
`i + 1 + t.length`. -/
theorem extSearch_of_specMatch (url : Str) :
    ∀ (i : Nat) (t : Str), specMatchTokenAt url i = some t →
      (∀ j, j < i → specMatchTokenAt url j = none) →
      extSearch url = some (i + 1 + t.length) := by
  induction url with
  | nil =>
    intro i t h _
    simp [specMatchTokenAt] at h
  | cons c rest ih =>
    intro i t h hmin
    cases i with
    | zero =>
      have h0 := specMatchTokenAt_zero (c :: rest)
      rw [h] at h0
      show extSearch (c :: rest) = some (0 + 1 + t.length)
      simp only [extSearch, h0, Option.map_some]
      norm_num
    | succ i0 =>
      have h0 : specMatchTokenAt (c :: rest) 0 = none := hmin 0 (Nat.succ_pos i0)
      have hm : matchExtAt (c :: rest) = none := by
        rw [specMatchTokenAt_zero, h0]; rfl
      have hrest : specMatchTokenAt rest i0 = some t := by
        rw [← specMatchTokenAt_succ c rest i0]; exact h
      have hminr : ∀ j, j < i0 → specMatchTokenAt rest j = none := by
        intro j hj
        rw [← specMatchTokenAt_succ c rest j]
        exact hmin (j + 1) (Nat.succ_lt_succ hj)
      have hr := ih i0 t hrest hminr
      have harith : i0 + 1 + t.length + 1 = i0 + 1 + 1 + t.length := by omega
      simp only [extSearch, hm, hr]
      exact congrArg some harith

/-- The two formulations of the query-string search agree. -/
theorem querySuffix_eq_specQuery (url : Str) : querySuffix url = specQuery url := by
  induction url with
  | nil => rfl
  | cons c rest ih =>
    by_cases hc : c = '?'
    · subst hc
      simp [querySuffix, specQuery, List.dropWhile]
    · simpa [querySuffix, specQuery, List.dropWhile, hc] using ih

/-- C5: on a URL containing the CDN marker, canonicalization truncates
immediately after the first recognized image extension (`png`, `jpg`,
`jpeg`, `gif`, `webp`, case-insensitively, alternatives tried in that order)
and reattaches the query string; in particular the spec's example CDN URL
canonicalizes exactly as stated. -/
theorem c5_cdn_truncation :
    (∀ (url : Str) (i : Nat) (t : Str),
        containsSub "wikia.nocookie.net".data url = true →
        specMatchTokenAt url i = some t →
        (∀ j, j < i → specMatchTokenAt url j = none) →
        clean_fandom_url url = url.take (i + 1 + t.length) ++ specQuery url)
    ∧ clean_fandom_url
        "https://static.wikia.nocookie.net/foo/images/a/ab/Pic.png/revision/latest/scale-to-width-down/150?cb=99".data
      = "https://static.wikia.nocookie.net/foo/images/a/ab/Pic.png?cb=99".data := by
  constructor
  · intro url i t hw hm hmin
    have he := extSearch_of_specMatch url i t hm hmin
    simp [clean_fandom_url, hw, he, querySuffix_eq_specQuery]
  · decide

theorem c5_cdn_truncation_witness :
    specMatchTokenAt
        "https://static.wikia.nocookie.net/foo/images/a/ab/Pic.png/revision/latest/scale-to-width-down/150?cb=99".data
        53 = some "png".data
    ∧ clean_fandom_url
        "https://static.wikia.nocookie.net/foo/images/a/ab/Pic.png/revision/latest/scale-to-width-down/150?cb=99".data
      = ("https://static.wikia.nocookie.net/foo/images/a/ab/Pic.png/revision/latest/scale-to-width-down/150?cb=99".data).take 57
        ++ specQuery "https://static.wikia.nocookie.net/foo/images/a/ab/Pic.png/revision/latest/scale-to-width-down/150?cb=99".data :=
  ⟨by decide,
   by
    have h := c5_cdn_truncation.1
      "https://static.wikia.nocookie.net/foo/images/a/ab/Pic.png/revision/latest/scale-to-width-down/150?cb=99".data
      53 "png".data (by decide) (by decide) (by decide)
    simpa using h⟩

/-- Scheme scanning succeeds over a block of scheme characters ending at a
colon, for any accumulator. -/
theorem schemeRest_append (s : Str) (r acc : Str) (h : ∀ c ∈ s, isSchemeChar c = true) :
    schemeRest (s ++ ':' :: r) acc = some (lowerStr (acc.reverse ++ s), r) := by
  induction s generalizing acc with
  | nil => simp [schemeRest]
  | cons a s0 ih =>
    have ha : isSchemeChar a = true := h a (List.mem_cons_self a s0)
    have hna : ¬ a = ':' := fun he => by
      rw [he] at ha
      exact absurd ha (by decide)
    show schemeRest (a :: (s0 ++ ':' :: r)) acc = _
    simp only [schemeRest, hna, if_false, ha, if_true]
    rw [ih (a :: acc) (fun c hc => h c (List.mem_cons_of_mem _ hc))]
    have : (a :: acc).reverse ++ s0 = acc.reverse ++ (a :: s0) := by
      simp [List.reverse_cons, List.append_assoc]
    rw [this]

/-- A URL of the form `scheme:rest` with a leading letter and scheme
characters splits at that colon. -/
theorem schemeSplit_shape (c : Char) (s0 r : Str) (hc : c.isAlpha = true)
    (h : ∀ x ∈ s0, isSchemeChar x = true) :
    schemeSplit ((c :: s0) ++ ':' :: r) = some (lowerStr (c :: s0), r) := by
  show schemeSplit (c :: (s0 ++ ':' :: r)) = _
  simp only [schemeSplit, hc, if_true]
  rw [schemeRest_append s0 r [c] h]
  simp

/-- Inversion of `schemeRest`: a successful scan means a block of scheme
characters up to a colon. -/
theorem schemeRest_some_shape : ∀ (v acc : Str) (sr : Str × Str), schemeRest v acc = some sr →
    ∃ s0, v = s0 ++ ':' :: sr.2 ∧ sr.1 = lowerStr (acc.reverse ++ s0)
      ∧ ∀ x ∈ s0, isSchemeChar x = true := by
  intro v
  induction v with
  | nil => intro acc sr h; simp [schemeRest] at h
  | cons c rest ih =>
    intro acc sr h
    by_cases hc : c = ':'
    · subst hc
      simp only [schemeRest, if_pos rfl] at h
      cases Option.some.inj h
      exact ⟨[], rfl, by simp, by simp⟩
    · by_cases hsc : isSchemeChar c = true
      · simp only [schemeRest, hc, if_false, hsc, if_true] at h
        obtain ⟨s0, hshape, hlower, hchars⟩ := ih (c :: acc) sr h
        refine ⟨c :: s0, ?_, ?_, ?_⟩
        · simp [hshape]
        · rw [hlower]
          have : (c :: acc).reverse ++ s0 = acc.reverse ++ (c :: s0) := by
            simp [List.reverse_cons, List.append_assoc]
          rw [this]
        · intro x hx
          rcases List.mem_cons.mp hx with rfl | hx
          · exact hsc
          · exact hchars x hx
      · simp [schemeRest, hc, hsc] at h

/-- Inversion of `schemeSplit`. -/
theorem schemeSplit_some_shape (v : Str) (sr : Str × Str) (h : schemeSplit v = some sr) :
    ∃ c s0, v = (c :: s0) ++ ':' :: sr.2 ∧ sr.1 = lowerStr (c :: s0)
      ∧ (∀ x ∈ s0, isSchemeChar x = true) ∧ c.isAlpha = true := by
  cases v with
  | nil => simp [schemeSplit] at h
  | cons c rest =>
    by_cases hc : c.isAlpha = true
    · simp only [schemeSplit, hc, if_true] at h
      obtain ⟨s0, hshape, hlower, hchars⟩ := schemeRest_some_shape rest [c] sr h
      refine ⟨c, s0, ?_, ?_, hchars, hc⟩
      · rw [hshape]; rfl
      · simpa using hlower
    · simp [schemeSplit, hc] at h

/-- The scheme field of `urlsplit` is the split scheme, or the default. -/
theorem pyUrlsplit_scheme (u d : Str) :
    (pyUrlsplit u d).scheme = (match schemeSplit u with | some sr => sr.1 | none => d) := by
  cases h : schemeSplit u <;> simp [pyUrlsplit, h]

/-- Parameter splitting does not touch the scheme. -/
theorem pyUrlparse_scheme (u d : Str) : (pyUrlparse u d).scheme = (pyUrlsplit u d).scheme := by
  by_cases h : (pyUrlsplit u d).scheme ∈ uses_params ∧ ';' ∈ (pyUrlsplit u d).path <;>
    simp [pyUrlparse, h]

/-- A URL headed by an explicit scheme block is absolute. -/
theorem abs_of_scheme_shape (c : Char) (s0 r : Str) (hc : c.isAlpha = true)
    (h : ∀ x ∈ s0, isSchemeChar x = true) :
    isAbsoluteUrl ((c :: s0) ++ ':' :: r) := by
  have hs := schemeSplit_shape c s0 r hc h
  rw [isAbsoluteUrl, pyUrlsplit_scheme, hs]
  simp [lowerStr]

theorem matchExtAt_ne_dot (c : Char) (l : Str) (h : ¬ c = '.') : matchExtAt (c :: l) = none := by
  simp [matchExtAt, h]

/-- The extension search skips any dot-free block. -/
theorem extSearch_append_no_dot (pre : Str) (w : Str) (h : ∀ c ∈ pre, ¬ c = '.') :
    extSearch (pre ++ w) = (extSearch w).map (· + pre.length) := by
  induction pre with
  | nil =>
    simp only [List.nil_append, List.length_nil]
    cases h : extSearch w <;> simp [h]
  | cons c pre0 ih =>
    have hm := matchExtAt_ne_dot c (pre0 ++ w) (h c (List.mem_cons_self c pre0))
    show extSearch (c :: (pre0 ++ w)) = _
    simp only [extSearch, hm]
    rw [ih (fun x hx => h x (List.mem_cons_of_mem _ hx))]
    cases extSearch w <;> (simp [List.length_cons]; try omega)

/-- CDN canonicalization cannot destroy a scheme whose characters contain no
dot: the truncation point always lies strictly after the scheme colon, so the
result is still absolute. -/
theorem clean_keeps_scheme (c : Char) (s0 r : Str) (hc : c.isAlpha = true)
    (hchars : ∀ x ∈ s0, isSchemeChar x = true)
    (hdot : '.' ∉ (c :: s0)) :
    isAbsoluteUrl (clean_fandom_url ((c :: s0) ++ ':' :: r)) := by
  by_cases hsub : containsSub "wikia.nocookie.net".data ((c :: s0) ++ ':' :: r) = true
  · cases he : extSearch ((c :: s0) ++ ':' :: r) with
    | none =>
      simp only [clean_fandom_url, hsub, if_true, he]
      exact abs_of_scheme_shape c s0 r hc hchars
    | some e =>
      have hpre : ∀ x ∈ (c :: s0) ++ [':'], ¬ x = '.' := by
        intro x hx
        rcases List.mem_append.mp hx with hx | hx
        · exact fun hxe => hdot (hxe ▸ hx)
        · simp at hx; subst hx; decide
      have hw : (c :: s0) ++ ':' :: r = ((c :: s0) ++ [':']) ++ r := by
        simp [List.append_assoc]
      have hshift : extSearch ((c :: s0) ++ ':' :: r)
          = (extSearch r).map (· + ((c :: s0) ++ [':']).length) := by
        rw [hw]; exact extSearch_append_no_dot _ _ hpre
      rw [hshift] at he
      cases he0 : extSearch r with
      | none => rw [he0] at he; simp at he
      | some e0 =>
        rw [he0] at he
        simp only [Option.map_some'] at he
        obtain rfl : e0 + ((c :: s0) ++ [':']).length = e := Option.some.inj he
        simp only [clean_fandom_url, hsub, if_true, hshift, he0, Option.map_some']
        have htake : ((c :: s0) ++ ':' :: r).take (e0 + ((c :: s0) ++ [':']).length)
            = ((c :: s0) ++ [':']) ++ r.take e0 := by
          rw [hw, Nat.add_comm]
          rw [List.take_append_eq_append_take]
          have h1 : (((c :: s0) ++ [':']) : Str).take (((c :: s0) ++ [':']).length + e0)
              = (c :: s0) ++ [':'] := List.take_of_length_le (by omega)
          have h2 : ((c :: s0) ++ [':']).length + e0 - ((c :: s0) ++ [':']).length = e0 := by omega
          rw [h1, h2]
        rw [htake]
        have hform : (((c :: s0) ++ [':']) ++ r.take e0)
              ++ querySuffix ((c :: s0) ++ ':' :: r)
            = (c :: s0) ++ ':' :: (r.take e0 ++ querySuffix ((c :: s0) ++ ':' :: r)) := by
          simp [List.append_assoc]
        rw [hform]
        exact abs_of_scheme_shape c s0 _ hc hchars
  · simp only [clean_fandom_url, hsub, if_false]
    exact abs_of_scheme_shape c s0 r hc hchars

/-- Unparsing with a non-empty scheme always yields `scheme:...`. -/
theorem pyUrlunparse_scheme_shape (sch nl p pr q f : Str) (h : sch ≠ []) :
    ∃ rest, pyUrlunparse ⟨sch, nl, p, pr, q, f⟩ = sch ++ ':' :: rest := by
  by_cases hq : q = [] <;> by_cases hf : f = [] <;>
    simp only [pyUrlunparse, pyUrlunsplit, hq, hf, h, ne_eq, not_false_eq_true, if_true,
      not_true_eq_false, if_false] <;>
    (first
      | exact ⟨_, rfl⟩
      | (simp only [List.append_assoc, List.cons_append, List.nil_append]; exact ⟨_, rfl⟩))

/-- `urljoin` either returns its second argument unchanged (when that
argument carries a scheme differing from the base's, or one outside
`uses_relative`), or builds its result by unparsing with the base's scheme. -/
theorem pyUrljoin_shape (base v : Str) (h1 : ¬ base = []) (h2 : ¬ v = []) :
    (pyUrljoin base v = v
      ∧ ((pyUrlparse v (pyUrlparse base []).scheme).scheme ≠ (pyUrlparse base []).scheme
         ∨ (pyUrlparse v (pyUrlparse base []).scheme).scheme ∉ uses_relative))
    ∨ ((pyUrlparse v (pyUrlparse base []).scheme).scheme = (pyUrlparse base []).scheme
       ∧ ∃ nl p pr q f, pyUrljoin base v =
           pyUrlunparse ⟨(pyUrlparse base []).scheme, nl, p, pr, q, f⟩) := by
  by_cases hC : (pyUrlparse v (pyUrlparse base []).scheme).scheme ≠ (pyUrlparse base []).scheme
      ∨ (pyUrlparse v (pyUrlparse base []).scheme).scheme ∉ uses_relative
  · left
    refine ⟨?_, hC⟩
    simp only [pyUrljoin, h1, h2, if_false]
    rw [if_pos hC]
  · right
    have heq : (pyUrlparse v (pyUrlparse base []).scheme).scheme = (pyUrlparse base []).scheme := by
      by_contra hne
      exact hC (Or.inl hne)
    refine ⟨heq, ?_⟩
    simp only [pyUrljoin, h1, h2, if_false]
    rw [if_neg hC]
    rw [heq]
    split
    · exact ⟨_, _, _, _, _, rfl⟩
    · split
      · exact ⟨_, _, _, _, _, rfl⟩
      · exact ⟨_, _, _, _, _, rfl⟩

/-- For an http(s) base URL, resolving a source value whose own scheme (if
any) contains no dot and then CDN-canonicalizing yields an absolute URL. -/
theorem urljoin_clean_abs (base v : Str)
    (hb : base.take 7 = "http://".data ∨ base.take 8 = "https://".data)
    (hv : ¬ v = [])
    (hdot : '.' ∉ (pyUrlsplit v []).scheme) :
    isAbsoluteUrl (clean_fandom_url (pyUrljoin base v)) := by
  have hbase_ne : ¬ base = [] := by
    rcases hb with h | h <;> intro he <;> rw [he] at h <;> exact absurd h (by decide)
  have hbscheme : (pyUrlparse base []).scheme = "http".data
      ∨ (pyUrlparse base []).scheme = "https".data := by
    rcases hb with h | h
    · left
      have hbs : base = "http://".data ++ base.drop 7 := by
        conv_lhs => rw [← List.take_append_drop 7 base]
        rw [h]
      rw [pyUrlparse_scheme, pyUrlsplit_scheme, hbs]
      have := schemeSplit_shape 'h' "ttp".data ('/' :: '/' :: base.drop 7) (by decide) (by decide)
      rw [show ("http://".data ++ base.drop 7 : Str)
          = ('h' :: "ttp".data) ++ ':' :: ('/' :: '/' :: base.drop 7) from rfl, this]
      rfl
    · right
      have hbs : base = "https://".data ++ base.drop 8 := by
        conv_lhs => rw [← List.take_append_drop 8 base]
        rw [h]
      rw [pyUrlparse_scheme, pyUrlsplit_scheme, hbs]
      have := schemeSplit_shape 'h' "ttps".data ('/' :: '/' :: base.drop 8) (by decide) (by decide)
      rw [show ("https://".data ++ base.drop 8 : Str)
          = ('h' :: "ttps".data) ++ ':' :: ('/' :: '/' :: base.drop 8) from rfl, this]
      rfl
  rcases pyUrljoin_shape base v hbase_ne hv with ⟨hjv, hcond⟩ | ⟨_, nl, p, pr, q, f, hj⟩
  · rw [hjv]
    cases hsv : schemeSplit v with
    | none =>
      have husch : (pyUrlparse v (pyUrlparse base []).scheme).scheme
          = (pyUrlparse base []).scheme := by
        rw [pyUrlparse_scheme, pyUrlsplit_scheme, hsv]
      rcases hcond with h | h
      · exact absurd husch h
      · rw [husch] at h
        rcases hbscheme with hb' | hb' <;> rw [hb'] at h <;> exact absurd (by decide) h
    | some sr =>
      obtain ⟨c, s0, hvshape, hlower, hchars, hcalpha⟩ := schemeSplit_some_shape v sr hsv
      have hdot0 : '.' ∉ (c :: s0) := by
        intro hmem
        apply hdot
        rw [pyUrlsplit_scheme, hsv]
        show '.' ∈ sr.1
        rw [hlower]
        have h2 : Char.toLower '.' ∈ lowerStr (c :: s0) := List.mem_map_of_mem Char.toLower hmem
        simpa using h2
      rw [hvshape]
      exact clean_keeps_scheme c s0 sr.2 hcalpha hchars hdot0
  · rw [hj]
    rcases hbscheme with hb' | hb'
    · rw [hb']
      obtain ⟨rest, hr⟩ := pyUrlunparse_scheme_shape "http".data nl p pr q f (by decide)
      rw [hr]
      exact clean_keeps_scheme 'h' "ttp".data rest (by decide) (by decide) (by decide)
    · rw [hb']
      obtain ⟨rest, hr⟩ := pyUrlunparse_scheme_shape "https".data nl p pr q f (by decide)
      rw [hr]
      exact clean_keeps_scheme 'h' "ttps".data rest (by decide) (by decide) (by decide)

/-- Exhaustive shape of one element-loop step: either the state is unchanged,
or exactly one record is appended whose source URL is the canonicalized
resolution of the chosen attribute value — a URL not already in `seen_srcs`,
which it simultaneously joins. -/
theorem process_img_cases (base : Str) (st : List Str × List Record) (img : Img) :
    process_img base st img = st
    ∨ ∃ v name, chosenSrc img = some v ∧ v ≠ []
        ∧ clean_fandom_url (pyUrljoin base v) ∉ st.1
        ∧ process_img base st img =
            (clean_fandom_url (pyUrljoin base v) :: st.1,
             st.2 ++ [⟨clean_fandom_url (pyUrljoin base v), name⟩]) := by
  cases hv : chosenSrc img with
  | none => left; unfold process_img; rw [hv]
  | some v =>
    by_cases hne : v = []
    · left; unfold process_img; rw [hv]; simp [hne]
    · by_cases hseen : clean_fandom_url (pyUrljoin base v) ∈ st.1
      · left; unfold process_img; rw [hv]; simp [hne, hseen]
      · cases hd : derived_name img (clean_fandom_url (pyUrljoin base v)) with
        | none => left; unfold process_img; rw [hv]; simp [hne, hseen, hd]
        | some nm =>
          right
          refine ⟨v, (suspicious_override (clean_fandom_url (pyUrljoin base v)) nm).map
            (fun c => if c = '_' then ' ' else c), rfl, hne, hseen, ?_⟩
          unfold process_img; rw [hv]; simp [hne, hseen, hd]

/-- Invariants of the element-loop fold: emitted source URLs all sit in the
`seen_srcs` set, they are pairwise distinct, and each originates as a
canonicalized resolution of some element's chosen source value. -/
theorem scrape_fold_inv (base : Str) :
    ∀ (imgs : List Img) (st : List Str × List Record),
      (∀ r ∈ st.2, r.src ∈ st.1) → (st.2.map Record.src).Nodup →
      (∀ r ∈ (imgs.foldl (process_img base) st).2,
          r.src ∈ (imgs.foldl (process_img base) st).1)
      ∧ ((imgs.foldl (process_img base) st).2.map Record.src).Nodup
      ∧ (∀ r ∈ (imgs.foldl (process_img base) st).2,
          r ∈ st.2 ∨ ∃ img, img ∈ imgs ∧ ∃ v, chosenSrc img = some v ∧ v ≠ []
            ∧ r.src = clean_fandom_url (pyUrljoin base v)) := by
  intro imgs
  induction imgs with
  | nil =>
    intro st h1 h2
    simp only [List.foldl_nil]
    exact ⟨h1, h2, fun r hr => Or.inl hr⟩
  | cons img rest ih =>
    intro st h1 h2
    rcases process_img_cases base st img with heq | ⟨v, name, hcv, hvne, hnotin, heq⟩
    · rw [List.foldl_cons, heq]
      obtain ⟨a, b, c⟩ := ih st h1 h2
      refine ⟨a, b, fun r hr => ?_⟩
      rcases c r hr with h | ⟨i, hi, w⟩
      · exact Or.inl h
      · exact Or.inr ⟨i, List.mem_cons_of_mem _ hi, w⟩
    · rw [List.foldl_cons, heq]
      have h1' : ∀ r ∈ st.2 ++ [Record.mk (clean_fandom_url (pyUrljoin base v)) name],
          r.src ∈ clean_fandom_url (pyUrljoin base v) :: st.1 := by
        intro r hr
        rcases List.mem_append.mp hr with hr | hr
        · exact List.mem_cons_of_mem _ (h1 r hr)
        · simp only [List.mem_singleton] at hr
          subst hr
          exact List.mem_cons_self _ _
      have h2' : ((st.2 ++ [Record.mk (clean_fandom_url (pyUrljoin base v)) name]).map Record.src).Nodup := by
        rw [List.map_append]
        rw [List.nodup_append]
        refine ⟨h2, List.nodup_singleton _, ?_⟩
        intro a ha hb
        simp only [List.map_cons, List.map_nil, List.mem_singleton] at hb
        subst hb
        obtain ⟨r, hr, hrs⟩ := List.mem_map.mp ha
        exact hnotin (hrs ▸ h1 r hr)
      obtain ⟨a, b, c⟩ := ih (clean_fandom_url (pyUrljoin base v) :: st.1,
        st.2 ++ [Record.mk (clean_fandom_url (pyUrljoin base v)) name]) h1' h2'
      refine ⟨a, b, fun r hr => ?_⟩
      rcases c r hr with hmem | ⟨i, hi, w⟩
      · rcases List.mem_append.mp hmem with hm | hm
        · exact Or.inl hm
        · simp only [List.mem_singleton] at hm
          subst hm
          exact Or.inr ⟨img, List.mem_cons_self _ _, v, hcv, hvne, rfl⟩
      · exact Or.inr ⟨i, List.mem_cons_of_mem _ hi, w⟩

/-- C3, counterexample: a crafted source attribute whose URL scheme itself
contains a recognized image extension (`a.png://wikia.nocookie.net/x`) is
returned unchanged by `urljoin` (its scheme is not in `uses_relative`), and
CDN canonicalization then truncates inside the scheme: the emitted record's
`sourceURL` is `a.png`, which is not absolute. -/
theorem c3_counterexample :
    (scrape "https://example.com/page".data
        [⟨some "a.png://wikia.nocookie.net/x".data, none, some "pic".data, none⟩]).map Record.src
      = ["a.png".data]
    ∧ ¬ isAbsoluteUrl "a.png".data :=
  ⟨by decide, by decide⟩

/-- C3, amended: no two records emitted by one extraction pass share a
`sourceURL` (unconditionally); and whenever the page URL is an http(s) URL
and no element's chosen source value carries a URL scheme containing a dot,
every emitted `sourceURL` is absolute.  (Unconditional absoluteness fails:
see the counterexample, where CDN canonicalization truncates inside a crafted
dotted scheme.) -/
theorem c3_unique_and_absolute (pageUrl : Str) (imgs : List Img) :
    ((scrape pageUrl imgs).map Record.src).Nodup
    ∧ ((pageUrl.take 7 = "http://".data ∨ pageUrl.take 8 = "https://".data) →
       (∀ img ∈ imgs, ∀ v, chosenSrc img = some v → '.' ∉ (pyUrlsplit v []).scheme) →
       ∀ r ∈ scrape pageUrl imgs, isAbsoluteUrl r.src) := by
  obtain ⟨h1, h2, h3⟩ := scrape_fold_inv pageUrl imgs ([], []) (by simp) (by simp)
  constructor
  · exact h2
  · intro hb hsch r hr
    rcases h3 r hr with hmem | ⟨img, hi, v, hcv, hvne, hsrc⟩
    · simp at hmem
    · rw [hsrc]
      exact urljoin_clean_abs pageUrl v hb hvne (hsch img hi v hcv)

theorem c3_unique_and_absolute_witness :
    ((scrape "https://example.com/page".data
        [⟨none, some "/a/Pic_1.png".data, some "A pic".data, none⟩]).map Record.src).Nodup
    ∧ isAbsoluteUrl ("https://example.com/a/Pic_1.png".data) := by
  have hsch : ∀ img ∈ ([⟨none, some "/a/Pic_1.png".data, some "A pic".data, none⟩] : List Img),
      ∀ v, chosenSrc img = some v → '.' ∉ (pyUrlsplit v []).scheme := by
    intro img hi v hv
    simp only [List.mem_singleton] at hi
    subst hi
    have hv' : "/a/Pic_1.png".data = v := Option.some.inj hv
    subst hv'
    decide
  have habs := (c3_unique_and_absolute "https://example.com/page".data
      [⟨none, some "/a/Pic_1.png".data, some "A pic".data, none⟩]).2
    (Or.inr (by decide)) hsch
    ⟨"https://example.com/a/Pic_1.png".data, "A pic".data⟩ (by decide)
  exact ⟨(c3_unique_and_absolute "https://example.com/page".data
      [⟨none, some "/a/Pic_1.png".data, some "A pic".data, none⟩]).1, habs⟩
